import Mathlib

/-!
# Exam scheduler backend: verified model of the scheduling core

A shallow embedding of `src/app.py` (exam-scheduler-backend).  The Python
program loads registration rows, builds a conflict graph over subjects,
colors it with networkx's greedy `largest_first` strategy, and renders each
color as a `Day-d Slot-s` label.

Modelling notes, tied to the source:

* A pandas row is a `Record` with three optional fields (`Rollno`, `Name`,
  `Course Name`); `df.dropna(subset=['Rollno', 'Name', 'Course Name'])`
  drops a row iff any of the three is missing (app.py line 66).
* Python dicts preserve insertion order, so the student map and the roster
  map are association lists built by `foldl` in row order.
* `build_conflict_graph` collects the node set `all_subjects` as a Python
  `set`.  A `set` of strings has an iteration order that is NOT a function
  of the program input (string hashing is randomized per process), so the
  node insertion order is modelled as an explicit parameter `setOrder`:
  any duplicate-free enumeration of `all_subjects` is a possible run.
* `nx.coloring.greedy_color(G, strategy='largest_first')` processes
  `sorted(G, key=G.degree, reverse=True)` — a stable descending sort by
  degree, ties broken by node insertion order — and gives each node the
  smallest color not used by an already-colored neighbor.  The stable sort
  is modelled by insertion sort (`sortByDegree`).
* Python `//` and `%` on ints are floor division and floor modulus, i.e.
  `Int.fdiv` / `Int.fmod`; `slot_index // SLOTS_PER_DAY` raises
  `ZeroDivisionError` when `SLOTS_PER_DAY = 0`, which the bare `except`
  turns into a failure return, modelled by `Option`.
-/

namespace ExamScheduler

/-- One raw spreadsheet row: the three columns `load_data_from_s3` reads.
A `none` field models a pandas NaN (missing cell). -/
structure Record where
  rollno : Option String
  name : Option String
  courseName : Option String
deriving DecidableEq

/-- `student_subjects_map`: student id → list of course names, in row order
(the Python code appends without dedup, app.py line 80). -/
abbrev StudentMap := List (String × List String)

/-- `subject_to_students_map`: subject → list of (rollno, name) pairs. -/
abbrev Roster := List (String × List (String × String))

/-- One row's effect on `temp_student_subjects` (app.py lines 74-80):
create the student entry on first sight, then append the course. -/
def addStudentRow (m : StudentMap) (roll course : String) : StudentMap :=
  if m.any (fun p => p.1 == roll) then
    m.map (fun p => if p.1 == roll then (p.1, p.2 ++ [course]) else p)
  else m ++ [(roll, [course])]

/-- One record's effect on the student map: rows with any of the three
columns missing were removed by the `dropna`, so they contribute nothing. -/
def studentStep (m : StudentMap) (r : Record) : StudentMap :=
  match r.rollno, r.name, r.courseName with
  | some roll, some _, some course => addStudentRow m roll course
  | _, _, _ => m

/-- The student map built from the rows that survive the `dropna` on
`Rollno`, `Name`, `Course Name` (app.py lines 66, 74-85). -/
def buildStudentMap (records : List Record) : StudentMap :=
  records.foldl studentStep []

/-- One row's effect on `subject_to_students_map` (app.py lines 90-98):
append the (rollno, name) pair unless already present for that subject. -/
def addRosterRow (m : Roster) (subject roll name : String) : Roster :=
  if m.any (fun p => p.1 == subject) then
    m.map (fun p =>
      if p.1 == subject then
        (p.1, if p.2.contains (roll, name) then p.2 else p.2 ++ [(roll, name)])
      else p)
  else m ++ [(subject, [(roll, name)])]

/-- One record's effect on the roster map; dropped rows contribute nothing. -/
def rosterStep (m : Roster) (r : Record) : Roster :=
  match r.rollno, r.name, r.courseName with
  | some roll, some name, some course => addRosterRow m course roll name
  | _, _, _ => m

/-- The subject → students roster built from the surviving rows. -/
def buildRoster (records : List Record) : Roster :=
  records.foldl rosterStep []

/-- The row-processing core of `load_data_from_s3` (app.py lines 65-102):
given already-parsed rows it always succeeds (`return True`), whatever the
row count; the `False` branches are S3/format failures outside the core. -/
def load_data_from_s3 (records : List Record) : Bool × StudentMap × Roster :=
  (true, buildStudentMap records, buildRoster records)

/-- The ordered pairs `(subjects[i], subjects[j])`, `i < j`, of one
student's list, self-pairs excluded (app.py lines 145-150). -/
def listPairs : List String → List (String × String)
  | [] => []
  | s :: rest =>
      rest.filterMap (fun t => if s = t then none else some (s, t)) ++ listPairs rest

/-- Every edge insertion performed by `build_conflict_graph`'s double loop
(app.py lines 143-150), in program order. -/
def conflictEdges (m : StudentMap) : List (String × String) :=
  m.flatMap (fun p => listPairs p.2)

/-- Adjacency of the resulting undirected `nx.Graph`: an (unordered) edge
exists iff some insertion added it in either orientation. -/
def conflictAdj (m : StudentMap) (s1 s2 : String) : Bool :=
  (conflictEdges m).any (fun e => (e.1 == s1 && e.2 == s2) || (e.1 == s2 && e.2 == s1))

/-- Membership list for the node set `all_subjects` (app.py lines 132-136);
only membership is meaningful, iteration order is the `setOrder` parameter. -/
def allSubjects (m : StudentMap) : List String :=
  m.flatMap (fun p => p.2)

/-- `build_conflict_graph` (app.py lines 119-153): fails (returns `False`)
when `student_subjects_map` is empty, else builds the edge list. -/
def build_conflict_graph (m : StudentMap) : Option (List (String × String)) :=
  if m.isEmpty then none else some (conflictEdges m)

/-- `G.degree(u)`: the number of graph nodes adjacent to `u`, counted over
the node enumeration `nodes`. -/
def degreeIn (adj : String → String → Bool) (nodes : List String) (u : String) : Nat :=
  (nodes.filter (fun v => adj u v)).length

/-- Stable insert for descending sort: `u` goes after every earlier node of
degree ≥ its own, as Python's stable `sorted(..., reverse=True)` does. -/
def insertByDeg (deg : String → Nat) (u : String) : List String → List String
  | [] => [u]
  | v :: rest => if deg u ≤ deg v then v :: insertByDeg deg u rest else u :: v :: rest

/-- `sorted(G, key=G.degree, reverse=True)`: stable descending sort of the
node insertion order by degree (networkx `strategy_largest_first`). -/
def sortByDegree (adj : String → String → Bool) (nodes : List String) : List String :=
  nodes.foldl (fun acc u => insertByDeg (degreeIn adj nodes) u acc) []

/-- `for color in itertools.count(): if color not in neighbour_colors: break`
— the smallest natural number missing from `used`.  A list of length `n`
cannot cover all of `0..n`, so the bounded search always succeeds; the
fallback arm is unreachable. -/
def smallestMissing (used : List Nat) : Nat :=
  match (List.range (used.length + 1)).find? (fun c => !(used.contains c)) with
  | some c => c
  | none => used.length + 1

/-- `{colors[v] for v in G[u] if v in colors}`: colors already assigned to
neighbors of `u` (as a list; only membership is used downstream). -/
def neighborColors (adj : String → String → Bool) (u : String)
    (acc : List (String × Nat)) : List Nat :=
  acc.filterMap (fun p => if adj u p.1 then some p.2 else none)

/-- The `for u in nodes:` loop of `nx.coloring.greedy_color`, threading the
insertion-ordered `colors` dict as an association list. -/
def greedyColorAux (adj : String → String → Bool) :
    List String → List (String × Nat) → List (String × Nat)
  | [], acc => acc
  | u :: rest, acc =>
      greedyColorAux adj rest (acc ++ [(u, smallestMissing (neighborColors adj u acc))])

/-- `nx.coloring.greedy_color(G, strategy='largest_first')` on the graph
with node insertion order `nodes` and adjacency `adj`. -/
def greedy_color (adj : String → String → Bool) (nodes : List String) :
    List (String × Nat) :=
  greedyColorAux adj (sortByDegree adj nodes) []

/-- `SLOTS_PER_DAY = 2` (app.py line 32). -/
def SLOTS_PER_DAY : Int := 2

/-- `f"Day-{day_num} Slot-{slot_in_day}"` with
`day_num = slot_index // spd + 1`, `slot_in_day = slot_index % spd + 1`
(app.py lines 181-183), in Python floor-division semantics. -/
def slotName (spd : Int) (slotIndex : Int) : String :=
  "Day-" ++ toString (slotIndex.fdiv spd + 1) ++ " Slot-" ++ toString (slotIndex.fmod spd + 1)

/-- One entry of `generated_timetable` (subject, slot label, students). -/
structure TimetableEntry where
  subject : String
  slot : String
  students : List (String × String)
deriving DecidableEq

/-- `app.config.get('subject_to_students_map', {}).get(subject, [])`. -/
def rosterOf (roster : Roster) (s : String) : List (String × String) :=
  match roster.find? (fun p => p.1 == s) with
  | some p => p.2
  | none => []

/-- `generate_timetable_slots` (app.py lines 155-196): fails when the graph
has no nodes; colors the graph; building the labels divides by
`SLOTS_PER_DAY`, so `spd = 0` raises `ZeroDivisionError` on the first
colored subject, caught by the bare `except` → failure. -/
def generate_timetable_slots (spd : Int) (nodes : List String)
    (adj : String → String → Bool) (roster : Roster) : Option (List TimetableEntry) :=
  if nodes.isEmpty then none
  else
    let coloring := greedy_color adj nodes
    if spd == 0 && !coloring.isEmpty then none
    else some (coloring.map (fun p => ⟨p.1, slotName spd (Int.ofNat p.2), rosterOf roster p.1⟩))

/-- The `/generate_timetable` pipeline (app.py lines 207-251) on
already-parsed rows: load, build the conflict graph, generate the slots.
`setOrder` is the iteration order of the Python set `all_subjects` in this
run — an enumeration the input does not determine. -/
def run_pipeline (records : List Record) (setOrder : List String) (spd : Int) :
    Option (List TimetableEntry) :=
  let r := load_data_from_s3 records
  if !r.1 then none
  else
    match build_conflict_graph r.2.1 with
    | none => none
    | some _ => generate_timetable_slots spd setOrder (conflictAdj r.2.1) r.2.2

/-- Color of subject `s` in an (association-list) coloring. -/
def colorOf (coloring : List (String × Nat)) (s : String) : Option Nat :=
  (coloring.find? (fun p => p.1 == s)).map (fun p => p.2)

/-- Slot label of subject `s` in a timetable. -/
def slotOf (t : List TimetableEntry) (s : String) : Option String :=
  (t.find? (fun e => e.subject == s)).map (fun e => e.slot)

/-- Number of distinct colors used by a coloring. -/
def colorsUsed (coloring : List (String × Nat)) : Nat :=
  ((coloring.map (fun p => p.2)).dedup).length

/-- Maximum degree over the node enumeration `nodes`. -/
def maxDegree (adj : String → String → Bool) (nodes : List String) : Nat :=
  (nodes.map (degreeIn adj nodes)).foldr max 0

/-- The spec's end-to-end scenario `S1:[A,B], S2:[B,C], S3:[C,D]` as rows. -/
def scenarioRecords : List Record :=
  [⟨some "S1", some "N1", some "A"⟩, ⟨some "S1", some "N1", some "B"⟩,
   ⟨some "S2", some "N2", some "B"⟩, ⟨some "S2", some "N2", some "C"⟩,
   ⟨some "S3", some "N3", some "C"⟩, ⟨some "S3", some "N3", some "D"⟩]

/-! ## Conflict-graph structure -/

lemma bool_eq_of_iff {a b : Bool} (h : a = true ↔ b = true) : a = b := by
  cases a <;> cases b <;> simp_all

lemma mem_listPairs {l : List String} {a b : String} (h : (a, b) ∈ listPairs l) :
    a ∈ l ∧ b ∈ l ∧ a ≠ b := by
  induction l with
  | nil => simp [listPairs] at h
  | cons s rest ih =>
      simp only [listPairs, List.mem_append] at h
      rcases h with h | h
      · rcases List.mem_filterMap.mp h with ⟨t, ht, hsome⟩
        by_cases hst : s = t
        · simp [hst] at hsome
        · simp only [if_neg hst] at hsome
          obtain ⟨rfl, rfl⟩ := Prod.mk.injEq .. ▸ Option.some.injEq .. ▸ hsome
          exact ⟨List.mem_cons_self .., List.mem_cons_of_mem _ ht, hst⟩
      · obtain ⟨ha, hb, hab⟩ := ih h
        exact ⟨List.mem_cons_of_mem _ ha, List.mem_cons_of_mem _ hb, hab⟩

lemma listPairs_of_mem {l : List String} {a b : String}
    (ha : a ∈ l) (hb : b ∈ l) (hab : a ≠ b) :
    (a, b) ∈ listPairs l ∨ (b, a) ∈ listPairs l := by
  induction l with
  | nil => simp at ha
  | cons s rest ih =>
      rcases List.mem_cons.mp ha with rfl | ha' <;>
        rcases List.mem_cons.mp hb with rfl | hb'
      · exact absurd rfl hab
      · left
        simp only [listPairs, List.mem_append]
        exact Or.inl (List.mem_filterMap.mpr ⟨b, hb', by simp [hab]⟩)
      · right
        simp only [listPairs, List.mem_append]
        exact Or.inl (List.mem_filterMap.mpr ⟨a, ha', by simp [Ne.symm hab]⟩)
      · rcases ih ha' hb' with h | h
        · exact Or.inl (by simp only [listPairs, List.mem_append]; exact Or.inr h)
        · exact Or.inr (by simp only [listPairs, List.mem_append]; exact Or.inr h)

lemma conflictAdj_iff {m : StudentMap} {s1 s2 : String} :
    conflictAdj m s1 s2 = true ↔ s1 ≠ s2 ∧ ∃ p ∈ m, s1 ∈ p.2 ∧ s2 ∈ p.2 := by
  constructor
  · intro h
    rcases List.any_eq_true.mp h with ⟨e, he, hpred⟩
    rcases List.mem_flatMap.mp he with ⟨p, hp, hep⟩
    rcases Bool.or_eq_true_iff.mp hpred with h' | h' <;>
      obtain ⟨h1, h2⟩ := Bool.and_eq_true_iff.mp h' <;>
      rw [beq_iff_eq] at h1 h2 <;> subst h1 <;> subst h2
    · obtain ⟨ha, hb, hab⟩ := mem_listPairs hep
      exact ⟨hab, p, hp, ha, hb⟩
    · obtain ⟨ha, hb, hab⟩ := mem_listPairs hep
      exact ⟨Ne.symm hab, p, hp, hb, ha⟩
  · rintro ⟨hab, p, hp, h1, h2⟩
    apply List.any_eq_true.mpr
    rcases listPairs_of_mem h1 h2 hab with h | h
    · exact ⟨(s1, s2), List.mem_flatMap.mpr ⟨p, hp, h⟩, by simp⟩
    · exact ⟨(s2, s1), List.mem_flatMap.mpr ⟨p, hp, h⟩, by simp⟩

lemma conflictAdj_symm (m : StudentMap) (s1 s2 : String) :
    conflictAdj m s1 s2 = conflictAdj m s2 s1 := by
  apply bool_eq_of_iff
  rw [conflictAdj_iff, conflictAdj_iff]
  constructor
  · rintro ⟨hne, p, hp, h1, h2⟩; exact ⟨Ne.symm hne, p, hp, h2, h1⟩
  · rintro ⟨hne, p, hp, h1, h2⟩; exact ⟨Ne.symm hne, p, hp, h2, h1⟩

lemma conflictAdj_irrefl (m : StudentMap) (s : String) :
    conflictAdj m s s = false := by
  by_contra h
  rw [Bool.not_eq_false] at h
  exact (conflictAdj_iff.mp h).1 rfl

lemma mem_allSubjects {m : StudentMap} {s : String} :
    s ∈ allSubjects m ↔ ∃ p ∈ m, s ∈ p.2 :=
  List.mem_flatMap

/-- **C6.** The conflict graph contains as a node every subject appearing in
any student's list, has no self-loops, and has an edge {s1, s2} exactly when
the subjects are distinct and some student's list contains both. -/
theorem conflict_graph_shape (m : StudentMap) (s1 s2 : String) :
    (s1 ∈ allSubjects m ↔ ∃ p ∈ m, s1 ∈ p.2) ∧
    conflictAdj m s1 s1 = false ∧
    (conflictAdj m s1 s2 = true ↔ s1 ≠ s2 ∧ ∃ p ∈ m, s1 ∈ p.2 ∧ s2 ∈ p.2) :=
  ⟨mem_allSubjects, conflictAdj_irrefl m s1, conflictAdj_iff⟩

/-! ## Greedy coloring: properness -/

lemma smallestMissing_find_some (used : List Nat) :
    ∃ c, (List.range (used.length + 1)).find? (fun c => !(used.contains c)) = some c := by
  cases h : (List.range (used.length + 1)).find? (fun c => !(used.contains c)) with
  | some c => exact ⟨c, rfl⟩
  | none =>
      exfalso
      have hall := List.find?_eq_none.mp h
      have hsub : (List.range (used.length + 1)).toFinset ⊆ used.toFinset := by
        intro x hx
        have hx' := List.mem_toFinset.mp hx
        have := hall x hx'
        simp only [Bool.not_eq_true', Bool.not_eq_false] at this
        exact List.mem_toFinset.mpr (by simpa using this)
      have h1 : used.length + 1 ≤ used.toFinset.card := by
        have hcard : (List.range (used.length + 1)).toFinset.card = used.length + 1 := by
          rw [List.toFinset_card_of_nodup (List.nodup_range _)]
          exact List.length_range _
        rw [← hcard]
        exact Finset.card_le_card hsub
      have h2 : used.toFinset.card ≤ used.length := List.toFinset_card_le used
      omega

lemma smallestMissing_not_mem (used : List Nat) : smallestMissing used ∉ used := by
  obtain ⟨c, hc⟩ := smallestMissing_find_some used
  have hpred := List.find?_some hc
  simp only [Bool.not_eq_true'] at hpred
  simp only [smallestMissing, hc]
  simpa using hpred

lemma smallestMissing_le (used : List Nat) : smallestMissing used ≤ used.length := by
  obtain ⟨c, hc⟩ := smallestMissing_find_some used
  have hmem := List.mem_of_find?_eq_some hc
  have := List.mem_range.mp hmem
  simp only [smallestMissing, hc]
  omega

lemma insertByDeg_perm (deg : String → Nat) (u : String) (l : List String) :
    (insertByDeg deg u l).Perm (u :: l) := by
  induction l with
  | nil => exact List.Perm.refl _
  | cons v rest ih =>
      simp only [insertByDeg]
      by_cases h : deg u ≤ deg v
      · rw [if_pos h]
        exact ((ih.cons v).trans (List.Perm.swap u v rest))
      · rw [if_neg h]

lemma foldl_insertByDeg_perm (deg : String → Nat) :
    ∀ (l acc : List String),
      (l.foldl (fun acc u => insertByDeg deg u acc) acc).Perm (l ++ acc)
  | [], acc => by simp
  | u :: rest, acc => by
      have ih := foldl_insertByDeg_perm deg rest (insertByDeg deg u acc)
      simp only [List.foldl_cons]
      refine ih.trans ?_
      refine (List.Perm.append_left rest (insertByDeg_perm deg u acc)).trans ?_
      exact List.perm_middle

lemma sortByDegree_perm (adj : String → String → Bool) (nodes : List String) :
    (sortByDegree adj nodes).Perm nodes := by
  have := foldl_insertByDeg_perm (degreeIn adj nodes) nodes []
  simpa [sortByDegree] using this

/-- A coloring is proper when entries for adjacent subjects carry distinct
colors. -/
def ProperColoring (adj : String → String → Bool) (coloring : List (String × Nat)) : Prop :=
  ∀ p ∈ coloring, ∀ q ∈ coloring, adj p.1 q.1 = true → p.2 ≠ q.2

lemma greedyColorAux_proper (adj : String → String → Bool)
    (hsym : ∀ a b, adj a b = adj b a) (hirr : ∀ a, adj a a = false) :
    ∀ (todo : List String) (acc : List (String × Nat)),
      ProperColoring adj acc →
      (∀ u ∈ todo, ∀ p ∈ acc, p.1 ≠ u) →
      todo.Nodup →
      ProperColoring adj (greedyColorAux adj todo acc)
  | [], acc, hacc, _, _ => hacc
  | u :: rest, acc, hacc, hfresh, hnd => by
      simp only [greedyColorAux]
      set c := smallestMissing (neighborColors adj u acc) with hc
      have hcnot : c ∉ neighborColors adj u acc := smallestMissing_not_mem _
      have hacc' : ProperColoring adj (acc ++ [(u, c)]) := by
        intro p hp q hq hadj
        rcases List.mem_append.mp hp with hp | hp <;>
          rcases List.mem_append.mp hq with hq | hq
        · exact hacc p hp q hq hadj
        · have hq' : q = (u, c) := List.mem_singleton.mp hq
          subst hq'
          intro hpq
          apply hcnot
          have hpc : p.2 = c := hpq
          rw [← hpc]
          exact List.mem_filterMap.mpr ⟨p, hp, by rw [if_pos (by rw [hsym]; exact hadj)]⟩
        · have hp' : p = (u, c) := List.mem_singleton.mp hp
          subst hp'
          intro hpq
          apply hcnot
          have hqc : c = q.2 := hpq
          rw [hqc]
          exact List.mem_filterMap.mpr ⟨q, hq, by rw [if_pos hadj]⟩
        · have hp' : p = (u, c) := List.mem_singleton.mp hp
          have hq' : q = (u, c) := List.mem_singleton.mp hq
          subst hp'; subst hq'
          rw [hirr u] at hadj
          exact absurd hadj (by simp)
      have hfresh' : ∀ v ∈ rest, ∀ p ∈ acc ++ [(u, c)], p.1 ≠ v := by
        intro v hv p hp
        rcases List.mem_append.mp hp with hp | hp
        · exact hfresh v (List.mem_cons_of_mem u hv) p hp
        · have hp' : p = (u, c) := List.mem_singleton.mp hp
          subst hp'
          intro huv
          have huv' : u = v := huv
          exact (List.nodup_cons.mp hnd).1 (huv' ▸ hv)
      exact greedyColorAux_proper adj hsym hirr rest (acc ++ [(u, c)]) hacc' hfresh'
        (List.nodup_cons.mp hnd).2

lemma greedy_color_proper_of_nodup (m : StudentMap) (order : List String)
    (hnd : order.Nodup) :
    ProperColoring (conflictAdj m) (greedy_color (conflictAdj m) order) := by
  apply greedyColorAux_proper (conflictAdj m) (conflictAdj_symm m) (conflictAdj_irrefl m)
  · intro p hp
    simp at hp
  · intro u _ p hp
    simp at hp
  · exact ((sortByDegree_perm (conflictAdj m) order).symm).nodup hnd

lemma colorOf_entry {coloring : List (String × Nat)} {s : String} {c : Nat}
    (h : colorOf coloring s = some c) :
    ∃ p ∈ coloring, p.1 = s ∧ p.2 = c := by
  rcases Option.map_eq_some'.mp h with ⟨p, hfind, hpc⟩
  have hps := List.find?_some (p := fun q : String × Nat => q.1 == s) hfind
  exact ⟨p, List.mem_of_find?_eq_some hfind, beq_iff_eq.mp hps, hpc⟩

lemma greedy_distinct_colors (m : StudentMap) (order : List String)
    (hnd : order.Nodup) (s1 s2 : String) (c1 c2 : Nat)
    (hadj : conflictAdj m s1 s2 = true)
    (h1 : colorOf (greedy_color (conflictAdj m) order) s1 = some c1)
    (h2 : colorOf (greedy_color (conflictAdj m) order) s2 = some c2) :
    c1 ≠ c2 := by
  obtain ⟨p, hp, hps, hpc⟩ := colorOf_entry h1
  obtain ⟨q, hq, hqs, hqc⟩ := colorOf_entry h2
  have := greedy_color_proper_of_nodup m order hnd p hp q hq
    (by rw [hps, hqs]; exact hadj)
  rw [hpc, hqc] at this
  exact this

/-- **C1.** For any input and any duplicate-free node enumeration of the
conflict graph, the greedy coloring is proper: adjacent subjects that both
received colors received different ones. -/
theorem greedy_coloring_proper (m : StudentMap) (order : List String)
    (hnd : order.Nodup) (s1 s2 : String) (c1 c2 : Nat)
    (hadj : conflictAdj m s1 s2 = true)
    (h1 : colorOf (greedy_color (conflictAdj m) order) s1 = some c1)
    (h2 : colorOf (greedy_color (conflictAdj m) order) s2 = some c2) :
    c1 ≠ c2 :=
  greedy_distinct_colors m order hnd s1 s2 c1 c2 hadj h1 h2

/-- Witness for C1 at the spec's end-to-end scenario: subjects "A" and "B"
share student S1 and indeed receive the distinct colors 1 and 0. -/
theorem greedy_coloring_proper_witness :
    (["A", "B", "C", "D"] : List String).Nodup ∧
    conflictAdj (buildStudentMap scenarioRecords) "A" "B" = true ∧
    colorOf (greedy_color (conflictAdj (buildStudentMap scenarioRecords))
      ["A", "B", "C", "D"]) "A" = some 1 ∧
    colorOf (greedy_color (conflictAdj (buildStudentMap scenarioRecords))
      ["A", "B", "C", "D"]) "B" = some 0 ∧
    (1 : Nat) ≠ 0 :=
  ⟨by decide, by decide, by decide, by decide,
    greedy_coloring_proper (buildStudentMap scenarioRecords) ["A", "B", "C", "D"]
      (by decide) "A" "B" 1 0 (by decide) (by decide) (by decide)⟩

/-! ## Greedy coloring: color-count bound -/

lemma length_le_length_of_nodup_subset {l1 l2 : List String}
    (hnd : l1.Nodup) (hsub : ∀ x ∈ l1, x ∈ l2) : l1.length ≤ l2.length := by
  have h1 : l1.length = l1.toFinset.card := (List.toFinset_card_of_nodup hnd).symm
  have h2 : l1.toFinset ⊆ l2.toFinset := by
    intro x hx
    exact List.mem_toFinset.mpr (hsub x (List.mem_toFinset.mp hx))
  calc l1.length = l1.toFinset.card := h1
    _ ≤ l2.toFinset.card := Finset.card_le_card h2
    _ ≤ l2.length := List.toFinset_card_le l2

lemma length_neighborColors (adj : String → String → Bool) (u : String)
    (acc : List (String × Nat)) :
    (neighborColors adj u acc).length
      = ((acc.map Prod.fst).filter (fun v => adj u v)).length := by
  induction acc with
  | nil => rfl
  | cons p acc' ih =>
      simp only [neighborColors, List.filterMap_cons, List.map_cons, List.filter_cons]
      by_cases h : adj u p.1 = true
      · rw [if_pos h, h]
        simpa [neighborColors] using ih
      · rw [if_neg h, Bool.eq_false_iff.mpr h]
        simpa [neighborColors] using ih

lemma length_neighborColors_le (adj : String → String → Bool) (u : String)
    (acc : List (String × Nat)) (nodes : List String)
    (hkeys : (acc.map Prod.fst).Nodup)
    (hsub : ∀ p ∈ acc, p.1 ∈ nodes) :
    (neighborColors adj u acc).length ≤ degreeIn adj nodes u := by
  rw [length_neighborColors]
  apply length_le_length_of_nodup_subset (hkeys.filter _)
  intro v hv
  have hv1 := List.mem_filter.mp hv
  rcases List.mem_map.mp hv1.1 with ⟨p, hp, rfl⟩
  exact List.mem_filter.mpr ⟨hsub p hp, hv1.2⟩

lemma le_foldr_max_of_mem {l : List Nat} {x : Nat} (h : x ∈ l) :
    x ≤ l.foldr max 0 := by
  induction l with
  | nil => simp at h
  | cons y l ih =>
      rcases List.mem_cons.mp h with rfl | h'
      · exact le_max_left _ _
      · exact le_trans (ih h') (le_max_right _ _)

lemma degreeIn_le_maxDegree (adj : String → String → Bool) (nodes : List String)
    {u : String} (hu : u ∈ nodes) :
    degreeIn adj nodes u ≤ maxDegree adj nodes :=
  le_foldr_max_of_mem (List.mem_map.mpr ⟨u, hu, rfl⟩)

lemma greedyColorAux_bound (adj : String → String → Bool) (nodes : List String) :
    ∀ (todo : List String) (acc : List (String × Nat)),
      (∀ u ∈ todo, u ∈ nodes) →
      (∀ p ∈ acc, p.1 ∈ nodes) →
      ((acc.map Prod.fst) ++ todo).Nodup →
      (∀ p ∈ acc, p.2 ≤ maxDegree adj nodes) →
      ∀ p ∈ greedyColorAux adj todo acc, p.2 ≤ maxDegree adj nodes
  | [], acc, _, _, _, hbound => hbound
  | u :: rest, acc, htodo, haccsub, hnd, hbound => by
      simp only [greedyColorAux]
      have hkeys : (acc.map Prod.fst).Nodup := (List.nodup_append.mp hnd).1
      have hu : u ∈ nodes := htodo u (List.mem_cons_self ..)
      have hc : smallestMissing (neighborColors adj u acc) ≤ maxDegree adj nodes := by
        calc smallestMissing (neighborColors adj u acc)
            ≤ (neighborColors adj u acc).length := smallestMissing_le _
          _ ≤ degreeIn adj nodes u :=
              length_neighborColors_le adj u acc nodes hkeys haccsub
          _ ≤ maxDegree adj nodes := degreeIn_le_maxDegree adj nodes hu
      apply greedyColorAux_bound adj nodes rest (acc ++ [(u, _)])
      · intro v hv
        exact htodo v (List.mem_cons_of_mem u hv)
      · intro p hp
        rcases List.mem_append.mp hp with hp | hp
        · exact haccsub p hp
        · rw [List.mem_singleton.mp hp]
          exact hu
      · rw [List.map_append]
        simpa [List.append_assoc] using hnd
      · intro p hp
        rcases List.mem_append.mp hp with hp | hp
        · exact hbound p hp
        · rw [List.mem_singleton.mp hp]
          exact hc

lemma colorsUsed_le_of_bound {coloring : List (String × Nat)} {D : Nat}
    (hb : ∀ p ∈ coloring, p.2 ≤ D) : colorsUsed coloring ≤ D + 1 := by
  unfold colorsUsed
  have hnd := List.nodup_dedup (coloring.map (fun p => p.2))
  have hsub : ((coloring.map (fun p => p.2)).dedup).toFinset ⊆ Finset.range (D + 1) := by
    intro v hv
    have hv' := List.mem_dedup.mp (List.mem_toFinset.mp hv)
    rcases List.mem_map.mp hv' with ⟨p, hp, rfl⟩
    exact Finset.mem_range.mpr (Nat.lt_succ_of_le (hb p hp))
  calc ((coloring.map (fun p => p.2)).dedup).length
      = ((coloring.map (fun p => p.2)).dedup).toFinset.card :=
        (List.toFinset_card_of_nodup hnd).symm
    _ ≤ (Finset.range (D + 1)).card := Finset.card_le_card hsub
    _ = D + 1 := Finset.card_range _

/-- **C5.** For any conflict graph (any student map, any duplicate-free node
enumeration), the greedy coloring uses at most maxDegree + 1 distinct
colors. -/
theorem greedy_colors_used_bound (m : StudentMap) (order : List String)
    (hnd : order.Nodup) :
    colorsUsed (greedy_color (conflictAdj m) order)
      ≤ maxDegree (conflictAdj m) order + 1 := by
  apply colorsUsed_le_of_bound
  apply greedyColorAux_bound (conflictAdj m) order (sortByDegree (conflictAdj m) order) []
  · intro u hu
    exact (sortByDegree_perm (conflictAdj m) order).mem_iff.mp hu
  · intro p hp
    simp at hp
  · simpa using ((sortByDegree_perm (conflictAdj m) order).symm).nodup hnd
  · intro p hp
    simp at hp

/-- Witness for C5: in the end-to-end scenario the coloring uses 2 colors,
and the maximum degree is 2, so 2 ≤ 2 + 1. -/
theorem greedy_colors_used_bound_witness :
    (["A", "B", "C", "D"] : List String).Nodup ∧
    colorsUsed (greedy_color (conflictAdj (buildStudentMap scenarioRecords))
      ["A", "B", "C", "D"]) = 2 ∧
    maxDegree (conflictAdj (buildStudentMap scenarioRecords)) ["A", "B", "C", "D"] = 2 ∧
    colorsUsed (greedy_color (conflictAdj (buildStudentMap scenarioRecords))
        ["A", "B", "C", "D"])
      ≤ maxDegree (conflictAdj (buildStudentMap scenarioRecords)) ["A", "B", "C", "D"] + 1 :=
  ⟨by decide, by decide, by decide,
    greedy_colors_used_bound (buildStudentMap scenarioRecords) ["A", "B", "C", "D"]
      (by decide)⟩

/-! ## Decimal labels: `Nat.repr` is injective, hence so is `slotName` -/

/-- Value of a decimal digit character. -/
def decDigitVal (c : Char) : Nat := c.toNat - 48

/-- Value of a big-endian list of decimal digit characters. -/
def valOfDigits (l : List Char) : Nat :=
  l.foldl (fun acc c => acc * 10 + decDigitVal c) 0

lemma toDigitsCore_acc (fuel : Nat) : ∀ (n : Nat) (ds : List Char),
    Nat.toDigitsCore 10 fuel n ds = Nat.toDigitsCore 10 fuel n [] ++ ds := by
  induction fuel with
  | zero => intro n ds; rfl
  | succ f ih =>
      intro n ds
      simp only [Nat.toDigitsCore]
      by_cases h : n / 10 = 0
      · rw [if_pos h, if_pos h]
        rfl
      · rw [if_neg h, if_neg h, ih (n / 10) [Nat.digitChar (n % 10)],
          ih (n / 10) (Nat.digitChar (n % 10) :: ds)]
        simp

lemma valOfDigits_append_digit (l : List Char) (c : Char) :
    valOfDigits (l ++ [c]) = valOfDigits l * 10 + decDigitVal c := by
  simp [valOfDigits, List.foldl_append]

lemma decDigitVal_digitChar {n : Nat} (h : n < 10) :
    decDigitVal (Nat.digitChar n) = n := by
  interval_cases n <;> rfl

lemma valOfDigits_toDigitsCore : ∀ (fuel n : Nat), n < fuel →
    valOfDigits (Nat.toDigitsCore 10 fuel n []) = n := by
  intro fuel
  induction fuel with
  | zero => intro n h; omega
  | succ f ih =>
      intro n h
      simp only [Nat.toDigitsCore]
      by_cases h0 : n / 10 = 0
      · rw [if_pos h0]
        have hn : n < 10 := by omega
        have hmod : n % 10 = n := Nat.mod_eq_of_lt hn
        show valOfDigits [Nat.digitChar (n % 10)] = n
        rw [hmod]
        simpa [valOfDigits] using decDigitVal_digitChar hn
      · rw [if_neg h0, toDigitsCore_acc]
        rw [valOfDigits_append_digit]
        have hne : n ≠ 0 := by
          intro h'
          subst h'
          simp at h0
        have hlt : n / 10 < n := Nat.div_lt_self (Nat.pos_of_ne_zero hne) (by norm_num)
        rw [ih (n / 10) (by omega), decDigitVal_digitChar (Nat.mod_lt _ (by norm_num))]
        omega

lemma repr_data_inj {a b : Nat} (h : (Nat.repr a).data = (Nat.repr b).data) :
    a = b := by
  have hdata : Nat.toDigits 10 a = Nat.toDigits 10 b := h
  have ha : valOfDigits (Nat.toDigits 10 a) = a :=
    valOfDigits_toDigitsCore (a + 1) a (Nat.lt_succ_self a)
  have hb : valOfDigits (Nat.toDigits 10 b) = b :=
    valOfDigits_toDigitsCore (b + 1) b (Nat.lt_succ_self b)
  rw [← ha, ← hb, hdata]

lemma digitChar_ne_space {m : Nat} (h : m < 10) : Nat.digitChar m ≠ ' ' := by
  interval_cases m <;> decide

lemma toDigitsCore_no_space : ∀ (fuel n : Nat) (ds : List Char),
    (∀ c ∈ ds, c ≠ ' ') → ∀ c ∈ Nat.toDigitsCore 10 fuel n ds, c ≠ ' ' := by
  intro fuel
  induction fuel with
  | zero => intro n ds hds; exact hds
  | succ f ih =>
      intro n ds hds c hc
      simp only [Nat.toDigitsCore] at hc
      have hd : Nat.digitChar (n % 10) ≠ ' ' :=
        digitChar_ne_space (Nat.mod_lt _ (by norm_num))
      by_cases h0 : n / 10 = 0
      · rw [if_pos h0] at hc
        rcases List.mem_cons.mp hc with rfl | hc'
        · exact hd
        · exact hds c hc'
      · rw [if_neg h0] at hc
        refine ih (n / 10) (Nat.digitChar (n % 10) :: ds) ?_ c hc
        intro c' hc'
        rcases List.mem_cons.mp hc' with rfl | hc''
        · exact hd
        · exact hds c' hc''

lemma repr_no_space (n : Nat) : ' ' ∉ (Nat.repr n).data := by
  intro hmem
  exact toDigitsCore_no_space (n + 1) n [] (by simp) ' ' hmem rfl

lemma split_at_space : ∀ (xs1 xs2 ys1 ys2 : List Char),
    ' ' ∉ xs1 → ' ' ∉ xs2 →
    xs1 ++ ' ' :: ys1 = xs2 ++ ' ' :: ys2 → xs1 = xs2 ∧ ys1 = ys2 := by
  intro xs1
  induction xs1 with
  | nil =>
      intro xs2 ys1 ys2 _ h2 heq
      cases xs2 with
      | nil =>
          simp only [List.nil_append] at heq
          exact ⟨rfl, (List.cons.injEq .. ▸ heq).2⟩
      | cons c t =>
          simp only [List.nil_append, List.cons_append] at heq
          have hc : ' ' = c := (List.cons.injEq .. ▸ heq).1
          exact absurd (hc ▸ List.mem_cons_self c t) h2
  | cons c t ih =>
      intro xs2 ys1 ys2 h1 h2 heq
      cases xs2 with
      | nil =>
          simp only [List.nil_append, List.cons_append] at heq
          have hc : c = ' ' := (List.cons.injEq .. ▸ heq).1
          exact absurd (hc ▸ List.mem_cons_self c t) h1
      | cons c' t' =>
          simp only [List.cons_append] at heq
          have hcc : c = c' := (List.cons.injEq .. ▸ heq).1
          have htt := (List.cons.injEq .. ▸ heq).2
          have h1' : ' ' ∉ t := fun hm => h1 (List.mem_cons_of_mem c hm)
          have h2' : ' ' ∉ t' := fun hm => h2 (List.mem_cons_of_mem c' hm)
          obtain ⟨he1, he2⟩ := ih t' ys1 ys2 h1' h2' htt
          exact ⟨by rw [hcc, he1], he2⟩

lemma dayLabel_inj {d1 s1 d2 s2 : Nat}
    (h : "Day-" ++ Nat.repr d1 ++ " Slot-" ++ Nat.repr s1
       = "Day-" ++ Nat.repr d2 ++ " Slot-" ++ Nat.repr s2) :
    d1 = d2 ∧ s1 = s2 := by
  have hdata := congrArg String.data h
  simp only [String.data_append] at hdata
  have hre : ∀ (rd rs : List Char),
      ['D', 'a', 'y', '-'] ++ rd ++ [' ', 'S', 'l', 'o', 't', '-'] ++ rs
        = (['D', 'a', 'y', '-'] ++ rd) ++ ' ' :: (['S', 'l', 'o', 't', '-'] ++ rs) := by
    intro rd rs
    simp
  rw [hre, hre] at hdata
  have hnsp : ∀ (n : Nat), ' ' ∉ ['D', 'a', 'y', '-'] ++ (Nat.repr n).data := by
    intro n hmem
    rcases List.mem_append.mp hmem with hm | hm
    · revert hm
      decide
    · exact repr_no_space n hm
  obtain ⟨hpre, hsuf⟩ := split_at_space _ _ _ _ (hnsp d1) (hnsp d2) hdata
  constructor
  · exact repr_data_inj (List.append_cancel_left hpre)
  · exact repr_data_inj (List.append_cancel_left hsuf)

lemma fdiv_ofNat (n k : Nat) :
    (Int.ofNat n).fdiv (Int.ofNat k) = Int.ofNat (n / k) := by
  cases n with
  | zero =>
      show (0 : Int) = Int.ofNat (0 / k)
      rw [Nat.zero_div]
      rfl
  | succ m => rfl

lemma fmod_ofNat (n k : Nat) :
    (Int.ofNat n).fmod (Int.ofNat k) = Int.ofNat (n % k) := by
  cases n with
  | zero =>
      show (0 : Int) = Int.ofNat (0 % k)
      rw [Nat.zero_mod]
      rfl
  | succ m => rfl

lemma slotName_ofNat (k n : Nat) :
    slotName (Int.ofNat k) (Int.ofNat n)
      = "Day-" ++ Nat.repr (n / k + 1) ++ " Slot-" ++ Nat.repr (n % k + 1) := by
  unfold slotName
  rw [fdiv_ofNat, fmod_ofNat]
  rfl

lemma slotName_inj_nat {k n1 n2 : Nat} (_hk : 1 ≤ k)
    (h : slotName (Int.ofNat k) (Int.ofNat n1) = slotName (Int.ofNat k) (Int.ofNat n2)) :
    n1 = n2 := by
  rw [slotName_ofNat, slotName_ofNat] at h
  obtain ⟨hd, hs⟩ := dayLabel_inj h
  have hdiv : n1 / k = n2 / k := by omega
  have hmod : n1 % k = n2 % k := by omega
  have e1 := Nat.div_add_mod n1 k
  have e2 := Nat.div_add_mod n2 k
  rw [hdiv, hmod] at e1
  exact e1.symm.trans e2

/-- **C10.** For any configured slots-per-day ≥ 1, the color → `Day-d Slot-s`
label map is injective: two colors get the same label iff they are equal. -/
theorem slot_label_injective (spd : Int) (hspd : 1 ≤ spd) (c1 c2 : Nat) :
    slotName spd (Int.ofNat c1) = slotName spd (Int.ofNat c2) ↔ c1 = c2 := by
  constructor
  · intro h
    obtain ⟨k, hk⟩ : ∃ k : Nat, spd = Int.ofNat k :=
      ⟨spd.toNat, (Int.toNat_of_nonneg (by omega)).symm⟩
    have hk1 : 1 ≤ k := by
      rw [hk] at hspd
      exact Int.ofNat_le.mp hspd
    exact slotName_inj_nat hk1 (by rw [← hk]; exact h)
  · intro h
    rw [h]

/-- Witness for C10 at spd = 2: colors 0 and 1 give `Day-1 Slot-1` and
`Day-1 Slot-2`, equal labels iff equal colors. -/
theorem slot_label_injective_witness :
    (1 : Int) ≤ 2 ∧
    (slotName 2 (Int.ofNat 0) = slotName 2 (Int.ofNat 1) ↔ (0 : Nat) = 1) :=
  ⟨by decide, slot_label_injective 2 (by decide) 0 1⟩

/-! ## Pipeline plumbing and no-double-booking -/

lemma build_conflict_graph_of_ne {m : StudentMap} (hm : m ≠ []) :
    build_conflict_graph m = some (conflictEdges m) := by
  unfold build_conflict_graph
  cases m with
  | nil => exact absurd rfl hm
  | cons p l => rfl

lemma generate_timetable_slots_eq {spd : Int} (hspd : (spd == 0) = false)
    {nodes : List String} (hne : nodes ≠ [])
    (adj : String → String → Bool) (roster : Roster) :
    generate_timetable_slots spd nodes adj roster
      = some ((greedy_color adj nodes).map
          (fun p => ⟨p.1, slotName spd (Int.ofNat p.2), rosterOf roster p.1⟩)) := by
  unfold generate_timetable_slots
  have h1 : nodes.isEmpty = false := by
    cases nodes with
    | nil => exact absurd rfl hne
    | cons a l => rfl
  rw [h1, hspd]
  simp

lemma greedyColorAux_keys (adj : String → String → Bool) :
    ∀ (todo : List String) (acc : List (String × Nat)),
      (greedyColorAux adj todo acc).map Prod.fst = acc.map Prod.fst ++ todo
  | [], acc => by simp [greedyColorAux]
  | u :: rest, acc => by
      simp only [greedyColorAux]
      rw [greedyColorAux_keys adj rest]
      simp

lemma colorOf_greedy_isSome (adj : String → String → Bool) {order : List String}
    {s : String} (hs : s ∈ order) :
    ∃ c, colorOf (greedy_color adj order) s = some c := by
  have hkeys : (greedy_color adj order).map Prod.fst = sortByDegree adj order := by
    have := greedyColorAux_keys adj (sortByDegree adj order) []
    simpa [greedy_color] using this
  have hs' : s ∈ (greedy_color adj order).map Prod.fst := by
    rw [hkeys]
    exact (sortByDegree_perm adj order).mem_iff.mpr hs
  rcases List.mem_map.mp hs' with ⟨p, hp, hps⟩
  have hfind : ((greedy_color adj order).find? (fun q => q.1 == s)).isSome :=
    List.find?_isSome.mpr ⟨p, hp, by rw [hps]; exact beq_self_eq_true s⟩
  rcases Option.isSome_iff_exists.mp hfind with ⟨q, hq⟩
  exact ⟨q.2, by simp [colorOf, hq]⟩

lemma slotOf_map (spd : Int) (roster : Roster) (coloring : List (String × Nat))
    (s : String) :
    slotOf (coloring.map
        (fun p => ⟨p.1, slotName spd (Int.ofNat p.2), rosterOf roster p.1⟩)) s
      = (colorOf coloring s).map (fun c => slotName spd (Int.ofNat c)) := by
  induction coloring with
  | nil => rfl
  | cons p l ih =>
      simp only [List.map_cons, slotOf, colorOf, List.find?]
      by_cases h : (p.1 == s) = true
      · rw [h]
        rfl
      · rw [Bool.eq_false_iff.mpr h]
        simpa [slotOf, colorOf] using ih

/-- **C2.** For every student in the input and every pair of distinct
subjects in their registration list, the final timetable (SLOTS_PER_DAY = 2)
assigns the two subjects day/slot labels, and those labels differ. -/
theorem no_student_double_booking (records : List Record) (setOrder : List String)
    (hnd : setOrder.Nodup)
    (hcomplete : allSubjects (buildStudentMap records) ⊆ setOrder)
    (st : String) (subs : List String)
    (hst : (st, subs) ∈ buildStudentMap records)
    (s1 s2 : String) (h1 : s1 ∈ subs) (h2 : s2 ∈ subs) (hne : s1 ≠ s2)
    (t : List TimetableEntry)
    (ht : run_pipeline records setOrder SLOTS_PER_DAY = some t) :
    ∃ l1 l2, slotOf t s1 = some l1 ∧ slotOf t s2 = some l2 ∧ l1 ≠ l2 := by
  have hm : buildStudentMap records ≠ [] := by
    intro h
    rw [h] at hst
    simp at hst
  have hs1o : s1 ∈ setOrder := hcomplete (mem_allSubjects.mpr ⟨(st, subs), hst, h1⟩)
  have hs2o : s2 ∈ setOrder := hcomplete (mem_allSubjects.mpr ⟨(st, subs), hst, h2⟩)
  have hOrdNe : setOrder ≠ [] := by
    intro h
    rw [h] at hs1o
    simp at hs1o
  have ht' : generate_timetable_slots SLOTS_PER_DAY setOrder
      (conflictAdj (buildStudentMap records)) (buildRoster records) = some t := by
    have h0 : run_pipeline records setOrder SLOTS_PER_DAY
        = (match build_conflict_graph (buildStudentMap records) with
           | none => none
           | some _ => generate_timetable_slots SLOTS_PER_DAY setOrder
               (conflictAdj (buildStudentMap records)) (buildRoster records)) := rfl
    rw [h0, build_conflict_graph_of_ne hm] at ht
    exact ht
  rw [generate_timetable_slots_eq (by decide) hOrdNe] at ht'
  have htv := (Option.some.inj ht').symm
  obtain ⟨c1, hc1⟩ := colorOf_greedy_isSome (conflictAdj (buildStudentMap records)) hs1o
  obtain ⟨c2, hc2⟩ := colorOf_greedy_isSome (conflictAdj (buildStudentMap records)) hs2o
  have hadj : conflictAdj (buildStudentMap records) s1 s2 = true :=
    conflictAdj_iff.mpr ⟨hne, (st, subs), hst, h1, h2⟩
  have hcc : c1 ≠ c2 :=
    greedy_distinct_colors (buildStudentMap records) setOrder hnd s1 s2 c1 c2 hadj hc1 hc2
  refine ⟨slotName SLOTS_PER_DAY (Int.ofNat c1), slotName SLOTS_PER_DAY (Int.ofNat c2),
    ?_, ?_, ?_⟩
  · rw [htv, slotOf_map, hc1]
    rfl
  · rw [htv, slotOf_map, hc2]
    rfl
  · intro heq
    exact hcc (slotName_inj_nat (k := 2) (by norm_num) heq)

/-- The timetable the pipeline produces on the end-to-end scenario when the
subject set enumerates in first-seen order A, B, C, D. -/
def scenarioTimetable : List TimetableEntry :=
  [⟨"B", "Day-1 Slot-1", [("S1", "N1"), ("S2", "N2")]⟩,
   ⟨"C", "Day-1 Slot-2", [("S2", "N2"), ("S3", "N3")]⟩,
   ⟨"A", "Day-1 Slot-2", [("S1", "N1")]⟩,
   ⟨"D", "Day-1 Slot-1", [("S3", "N3")]⟩]

/-- Witness for C2: student S1 takes A and B; in the scenario timetable
their labels (Day-1 Slot-2 and Day-1 Slot-1) differ. -/
theorem no_student_double_booking_witness :
    (["A", "B", "C", "D"] : List String).Nodup ∧
    allSubjects (buildStudentMap scenarioRecords) ⊆ ["A", "B", "C", "D"] ∧
    ("S1", ["A", "B"]) ∈ buildStudentMap scenarioRecords ∧
    "A" ∈ (["A", "B"] : List String) ∧ "B" ∈ (["A", "B"] : List String) ∧
    ("A" : String) ≠ "B" ∧
    run_pipeline scenarioRecords ["A", "B", "C", "D"] SLOTS_PER_DAY
      = some scenarioTimetable ∧
    ∃ l1 l2, slotOf scenarioTimetable "A" = some l1 ∧
      slotOf scenarioTimetable "B" = some l2 ∧ l1 ≠ l2 :=
  ⟨by decide, by decide, by decide, by decide, by decide, by decide, by decide,
    no_student_double_booking scenarioRecords ["A", "B", "C", "D"] (by decide)
      (by decide) "S1" ["A", "B"] (by decide) "A" "B" (by decide) (by decide)
      (by decide) scenarioTimetable (by decide)⟩

/-! ## Determinism, the end-to-end scenario, and error behavior -/

/-- Counterexample to C3: the same registrations and slotsPerDay, with two
node enumerations of the same subject set (both realizable as Python `set`
iteration orders), produce different timetables.  Run-to-run determinism
fails because the set order is not a function of the input. -/
theorem pipeline_output_depends_on_set_order :
    (["A", "B", "C", "D"] : List String) ⊆ ["C", "B", "D", "A"] ∧
    (["C", "B", "D", "A"] : List String) ⊆ ["A", "B", "C", "D"] ∧
    (["A", "B", "C", "D"] : List String).Nodup ∧
    (["C", "B", "D", "A"] : List String).Nodup ∧
    run_pipeline scenarioRecords ["A", "B", "C", "D"] SLOTS_PER_DAY
      ≠ run_pipeline scenarioRecords ["C", "B", "D", "A"] SLOTS_PER_DAY := by
  refine ⟨by decide, by decide, by decide, by decide, by decide⟩

/-- **C3 (amended).** The pipeline is deterministic only relative to the
graph and the node insertion order: two student maps inducing the same
adjacency relation yield, for the same insertion order, the identical
coloring.  (The insertion order itself is not determined by the input.) -/
theorem coloring_determined_by_graph_and_order (m1 m2 : StudentMap)
    (order : List String)
    (h : ∀ s t, conflictAdj m1 s t = conflictAdj m2 s t) :
    greedy_color (conflictAdj m1) order = greedy_color (conflictAdj m2) order := by
  have hadj : conflictAdj m1 = conflictAdj m2 :=
    funext (fun s => funext (fun t => h s t))
  rw [hadj]

/-- Witness for the amended C3 at the scenario's student map. -/
theorem coloring_determined_by_graph_and_order_witness :
    (∀ s t, conflictAdj (buildStudentMap scenarioRecords) s t
      = conflictAdj (buildStudentMap scenarioRecords) s t) ∧
    greedy_color (conflictAdj (buildStudentMap scenarioRecords)) ["A", "B", "C", "D"]
      = greedy_color (conflictAdj (buildStudentMap scenarioRecords)) ["A", "B", "C", "D"] :=
  ⟨fun _ _ => rfl,
    coloring_determined_by_graph_and_order (buildStudentMap scenarioRecords)
      (buildStudentMap scenarioRecords) ["A", "B", "C", "D"] (fun _ _ => rfl)⟩

/-- Counterexample to C4's coloring clause: with set iteration order
C, B, D, A (also an enumeration of {A,B,C,D}), subject B gets color 1,
not the claimed 0. -/
theorem scenario_coloring_depends_on_order :
    (["C", "B", "D", "A"] : List String).Nodup ∧
    (["C", "B", "D", "A"] : List String) ⊆ ["A", "B", "C", "D"] ∧
    (["A", "B", "C", "D"] : List String) ⊆ ["C", "B", "D", "A"] ∧
    colorOf (greedy_color (conflictAdj (buildStudentMap scenarioRecords))
      ["C", "B", "D", "A"]) "B" = some 1 ∧
    some 1 ≠ some (0 : Nat) := by
  refine ⟨by decide, by decide, by decide, by decide, by decide⟩

/-- **C4 (amended).** In the end-to-end scenario the conflict edges are
exactly {A,B}, {B,C}, {C,D}; when the subject set happens to enumerate in
first-seen order A, B, C, D, the processing order is B, C, A, D, the greedy
coloring is B=0, C=1, A=1, D=0, and with SLOTS_PER_DAY = 2 the labels are
B, D → `Day-1 Slot-1` and C, A → `Day-1 Slot-2`. -/
theorem scenario_end_to_end :
    conflictEdges (buildStudentMap scenarioRecords)
      = [("A", "B"), ("B", "C"), ("C", "D")] ∧
    sortByDegree (conflictAdj (buildStudentMap scenarioRecords)) ["A", "B", "C", "D"]
      = ["B", "C", "A", "D"] ∧
    greedy_color (conflictAdj (buildStudentMap scenarioRecords)) ["A", "B", "C", "D"]
      = [("B", 0), ("C", 1), ("A", 1), ("D", 0)] ∧
    run_pipeline scenarioRecords ["A", "B", "C", "D"] SLOTS_PER_DAY
      = some scenarioTimetable ∧
    slotOf scenarioTimetable "B" = some "Day-1 Slot-1" ∧
    slotOf scenarioTimetable "D" = some "Day-1 Slot-1" ∧
    slotOf scenarioTimetable "C" = some "Day-1 Slot-2" ∧
    slotOf scenarioTimetable "A" = some "Day-1 Slot-2" := by
  refine ⟨by decide, by decide, by decide, by decide, by decide, by decide, by decide,
    by decide⟩

/-- Counterexample to C7: with zero registrations the load stage
(RegistrationIndex) still reports success; no error is signalled there. -/
theorem load_stage_reports_success_on_empty :
    (load_data_from_s3 []).1 = true ∧
    buildStudentMap [] = [] ∧
    run_pipeline [] [] SLOTS_PER_DAY = none := by
  refine ⟨rfl, rfl, rfl⟩

/-- **C7 (amended).** When zero valid registrations remain, the load stage
reports success with an empty map; the emptiness is detected one stage
later, in `build_conflict_graph`, whose failure makes the pipeline return
an error rather than an empty timetable. -/
theorem empty_registrations_detected_at_graph_stage (records : List Record)
    (setOrder : List String) (spd : Int)
    (h : buildStudentMap records = []) :
    (load_data_from_s3 records).1 = true ∧
    build_conflict_graph (buildStudentMap records) = none ∧
    run_pipeline records setOrder spd = none := by
  refine ⟨rfl, ?_, ?_⟩
  · rw [h]
    rfl
  · have h0 : run_pipeline records setOrder spd
        = (match build_conflict_graph (buildStudentMap records) with
           | none => none
           | some _ => generate_timetable_slots spd setOrder
               (conflictAdj (buildStudentMap records)) (buildRoster records)) := rfl
    rw [h0, h]
    rfl

/-- Witness for the amended C7: one row missing only its Name leaves zero
valid registrations, and the pipeline fails at the graph stage. -/
theorem empty_registrations_detected_witness :
    buildStudentMap [(⟨some "S1", none, some "A"⟩ : Record)] = [] ∧
    (load_data_from_s3 [(⟨some "S1", none, some "A"⟩ : Record)]).1 = true ∧
    build_conflict_graph (buildStudentMap [(⟨some "S1", none, some "A"⟩ : Record)]) = none ∧
    run_pipeline [(⟨some "S1", none, some "A"⟩ : Record)] ["A"] SLOTS_PER_DAY = none :=
  ⟨by decide,
    (empty_registrations_detected_at_graph_stage
      [(⟨some "S1", none, some "A"⟩ : Record)] ["A"] SLOTS_PER_DAY (by decide)).1,
    (empty_registrations_detected_at_graph_stage
      [(⟨some "S1", none, some "A"⟩ : Record)] ["A"] SLOTS_PER_DAY (by decide)).2.1,
    (empty_registrations_detected_at_graph_stage
      [(⟨some "S1", none, some "A"⟩ : Record)] ["A"] SLOTS_PER_DAY (by decide)).2.2⟩

/-- Counterexample to C8: a negative slotsPerDay is not rejected — the
pipeline produces a timetable, with nonsensical labels such as
`Day-0 Slot-1`. -/
theorem negative_spd_produces_timetable :
    (-1 : Int) < 1 ∧
    (run_pipeline scenarioRecords ["A", "B", "C", "D"] (-1)).isSome = true ∧
    slotName (-1) (Int.ofNat 1) = "Day-0 Slot-1" := by
  refine ⟨by decide, by decide, by decide⟩

lemma greedy_color_ne_nil (adj : String → String → Bool) {nodes : List String}
    (h : nodes ≠ []) : greedy_color adj nodes ≠ [] := by
  intro hc
  have hkeys : (greedy_color adj nodes).map Prod.fst = sortByDegree adj nodes := by
    have := greedyColorAux_keys adj (sortByDegree adj nodes) []
    simpa [greedy_color] using this
  have hlen := (sortByDegree_perm adj nodes).length_eq
  rw [← hkeys, hc] at hlen
  cases nodes with
  | nil => exact h rfl
  | cons a l => simp at hlen

/-- **C8 (amended).** The code performs no slotsPerDay validation:
slotsPerDay = 0 fails only through the caught `ZeroDivisionError`
(no timetable), while every nonzero value — negative included — produces a
timetable. -/
theorem slots_per_day_validation (records : List Record) (setOrder : List String)
    (spd : Int) (hm : buildStudentMap records ≠ []) (hOrd : setOrder ≠ []) :
    run_pipeline records setOrder 0 = none ∧
    (spd ≠ 0 → (run_pipeline records setOrder spd).isSome = true) := by
  have h0 : ∀ q : Int, run_pipeline records setOrder q
      = (match build_conflict_graph (buildStudentMap records) with
         | none => none
         | some _ => generate_timetable_slots q setOrder
             (conflictAdj (buildStudentMap records)) (buildRoster records)) :=
    fun q => rfl
  have hcol : (greedy_color (conflictAdj (buildStudentMap records)) setOrder).isEmpty
      = false := by
    cases hc : greedy_color (conflictAdj (buildStudentMap records)) setOrder with
    | nil => exact absurd hc (greedy_color_ne_nil _ hOrd)
    | cons p l => rfl
  have hns : setOrder.isEmpty = false := by
    cases setOrder with
    | nil => exact absurd rfl hOrd
    | cons a l => rfl
  constructor
  · rw [h0 0, build_conflict_graph_of_ne hm]
    show generate_timetable_slots 0 setOrder
      (conflictAdj (buildStudentMap records)) (buildRoster records) = none
    unfold generate_timetable_slots
    rw [hns]
    simp only [Bool.false_eq_true, if_false]
    rw [hcol]
    rfl
  · intro hspd
    have hbeq : (spd == 0) = false := by
      cases hb : spd == 0 with
      | false => rfl
      | true => exact absurd (eq_of_beq hb) hspd
    rw [h0 spd, build_conflict_graph_of_ne hm,
      generate_timetable_slots_eq hbeq hOrd]
    rfl

/-- Witness for the amended C8 at the scenario with spd = -1. -/
theorem slots_per_day_validation_witness :
    buildStudentMap scenarioRecords ≠ [] ∧
    (["A", "B", "C", "D"] : List String) ≠ [] ∧
    (-1 : Int) ≠ 0 ∧
    run_pipeline scenarioRecords ["A", "B", "C", "D"] 0 = none ∧
    (run_pipeline scenarioRecords ["A", "B", "C", "D"] (-1)).isSome = true :=
  ⟨by decide, by decide, by decide,
    (slots_per_day_validation scenarioRecords ["A", "B", "C", "D"] (-1)
      (by decide) (by decide)).1,
    (slots_per_day_validation scenarioRecords ["A", "B", "C", "D"] (-1)
      (by decide) (by decide)).2 (by decide)⟩

/-! ## Record-drop policy -/

lemma addStudentRow_keys (m : StudentMap) (roll' course roll : String) :
    roll ∈ (addStudentRow m roll' course).map Prod.fst ↔
      roll ∈ m.map Prod.fst ∨ roll = roll' := by
  unfold addStudentRow
  by_cases h : m.any (fun p => p.1 == roll') = true
  · rw [if_pos h]
    have hkeys : (m.map (fun p => if p.1 == roll' then (p.1, p.2 ++ [course]) else p)).map
        Prod.fst = m.map Prod.fst := by
      rw [List.map_map]
      apply List.map_congr_left
      intro p _
      show (if p.1 == roll' then (p.1, p.2 ++ [course]) else p).1 = p.1
      split <;> rfl
    rw [hkeys]
    constructor
    · exact Or.inl
    · rintro (hm | rfl)
      · exact hm
      · rcases List.any_eq_true.mp h with ⟨p, hp, hpe⟩
        exact List.mem_map.mpr ⟨p, hp, beq_iff_eq.mp hpe⟩
  · rw [if_neg h, List.map_append]
    simp

lemma studentStep_keys (m : StudentMap) (r : Record) (roll : String) :
    roll ∈ (studentStep m r).map Prod.fst ↔
      roll ∈ m.map Prod.fst ∨
        (r.rollno = some roll ∧ r.name.isSome = true ∧ r.courseName.isSome = true) := by
  obtain ⟨ro, na, co⟩ := r
  cases ro with
  | none => simp [studentStep]
  | some roll' =>
      cases na with
      | none => simp [studentStep]
      | some nm =>
          cases co with
          | none => simp [studentStep]
          | some course =>
              show roll ∈ (addStudentRow m roll' course).map Prod.fst ↔ _
              rw [addStudentRow_keys]
              simp [eq_comm]

lemma foldl_studentStep_keys : ∀ (records : List Record) (m : StudentMap) (roll : String),
    (roll ∈ ((records.foldl studentStep m).map Prod.fst)) ↔
      roll ∈ m.map Prod.fst ∨
        ∃ r ∈ records, r.rollno = some roll ∧ r.name.isSome = true ∧
          r.courseName.isSome = true := by
  intro records
  induction records with
  | nil => intro m roll; simp
  | cons r rest ih =>
      intro m roll
      simp only [List.foldl_cons]
      rw [ih, studentStep_keys, List.exists_mem_cons_iff]
      exact or_assoc

lemma addRosterRow_keys (m : Roster) (subject' roll name subject : String) :
    subject ∈ (addRosterRow m subject' roll name).map Prod.fst ↔
      subject ∈ m.map Prod.fst ∨ subject = subject' := by
  unfold addRosterRow
  by_cases h : m.any (fun p => p.1 == subject') = true
  · rw [if_pos h]
    have hkeys : (m.map (fun p =>
        if p.1 == subject' then
          (p.1, if p.2.contains (roll, name) then p.2 else p.2 ++ [(roll, name)])
        else p)).map Prod.fst = m.map Prod.fst := by
      rw [List.map_map]
      apply List.map_congr_left
      intro p _
      show (if p.1 == subject' then
        (p.1, if p.2.contains (roll, name) then p.2 else p.2 ++ [(roll, name)])
        else p).1 = p.1
      split <;> rfl
    rw [hkeys]
    constructor
    · exact Or.inl
    · rintro (hm | rfl)
      · exact hm
      · rcases List.any_eq_true.mp h with ⟨p, hp, hpe⟩
        exact List.mem_map.mpr ⟨p, hp, beq_iff_eq.mp hpe⟩
  · rw [if_neg h, List.map_append]
    simp

lemma rosterStep_keys (m : Roster) (r : Record) (subject : String) :
    subject ∈ (rosterStep m r).map Prod.fst ↔
      subject ∈ m.map Prod.fst ∨
        (r.courseName = some subject ∧ r.rollno.isSome = true ∧ r.name.isSome = true) := by
  obtain ⟨ro, na, co⟩ := r
  cases ro with
  | none => simp [rosterStep]
  | some roll =>
      cases na with
      | none => simp [rosterStep]
      | some nm =>
          cases co with
          | none => simp [rosterStep]
          | some course =>
              show subject ∈ (addRosterRow m course roll nm).map Prod.fst ↔ _
              rw [addRosterRow_keys]
              simp [eq_comm]

lemma foldl_rosterStep_keys : ∀ (records : List Record) (m : Roster) (subject : String),
    (subject ∈ ((records.foldl rosterStep m).map Prod.fst)) ↔
      subject ∈ m.map Prod.fst ∨
        ∃ r ∈ records, r.courseName = some subject ∧ r.rollno.isSome = true ∧
          r.name.isSome = true := by
  intro records
  induction records with
  | nil => intro m subject; simp
  | cons r rest ih =>
      intro m subject
      simp only [List.foldl_cons]
      rw [ih, rosterStep_keys, List.exists_mem_cons_iff]
      exact or_assoc

/-- **C9 (amended).** A record contributes to the student map iff all three
of student_id, student_name, subject_name are present (the `dropna` also
requires Name); likewise for the roster; and dropping is silent — the load
stage reports success regardless. -/
theorem record_drop_policy (records : List Record) (roll subject : String) :
    (roll ∈ (buildStudentMap records).map Prod.fst ↔
      ∃ r ∈ records, r.rollno = some roll ∧ r.name.isSome = true ∧
        r.courseName.isSome = true) ∧
    (subject ∈ (buildRoster records).map Prod.fst ↔
      ∃ r ∈ records, r.courseName = some subject ∧ r.rollno.isSome = true ∧
        r.name.isSome = true) ∧
    (load_data_from_s3 records).1 = true := by
  refine ⟨?_, ?_, rfl⟩
  · have := foldl_studentStep_keys records [] roll
    simpa [buildStudentMap] using this
  · have := foldl_rosterStep_keys records [] subject
    simpa [buildRoster] using this

/-- Counterexample to C9: a record with student_id and subject_name present
but student_name missing is dropped — it contributes to neither map. -/
theorem name_missing_record_dropped :
    (⟨some "S1", none, some "A"⟩ : Record).rollno.isSome = true ∧
    (⟨some "S1", none, some "A"⟩ : Record).courseName.isSome = true ∧
    (⟨some "S1", none, some "A"⟩ : Record).name.isSome = false ∧
    buildStudentMap [(⟨some "S1", none, some "A"⟩ : Record)] = [] ∧
    buildRoster [(⟨some "S1", none, some "A"⟩ : Record)] = [] := by
  refine ⟨rfl, rfl, rfl, rfl, rfl⟩

end ExamScheduler
